import Mathlib

/-!
Verification development for the Terminal Registry subsystem of
`apps/terminal/models/terminal.py`: protocol catalog seeding
(`Protocol.get_or_create_protocols`, `get_default_protocols_data`),
liveness tracking over an expiring key/value cache
(`TerminalStatusMixin.is_alive` / `set_alive`), storage-config fallback
(`StorageMixin.get_command_storage_config` / `get_replay_storage_config`),
soft deletion with account cascade (`Terminal.delete`), protocol reset
(`Terminal.reset_protocols_to_default`) and the status label computed by
`Terminal.__str__`.

The relational store is modelled as explicit list-valued state threaded
through each operation; Python exceptions become `Except` results; the
Django cache becomes an association list of entries with absolute expiry
times and an explicit clock.
-/

namespace JumpTerminal

/-- One row of the protocol catalog (model `Protocol`): a protocol name, a
port, and the builtin flag.  The store enforces uniqueness of the
(name, port) pair. -/
structure Protocol where
  name : String
  port : Nat
  builtin : Bool
deriving DecidableEq, Repr

/-- A seeding entry, the shape of the dicts passed to
`Protocol.get_or_create_protocols`: either key may be missing (`none`), and
Python truthiness additionally treats the empty string and port 0 as
missing. -/
structure ProtoEntry where
  name : Option String
  port : Option Nat
  builtin : Bool
deriving DecidableEq, Repr

/-- The (name, port) pair of a well-formed entry; `none` when the entry
fails the source's `if not all([name, port]): continue` truthiness test. -/
def entryPair (d : ProtoEntry) : Option (String × Nat) :=
  match d.name, d.port with
  | some n, some p => if n.isEmpty || p == 0 then none else some (n, p)
  | _, _ => none

/-- The (name, port) pairs of the well-formed entries of a data list. -/
def wfPairs (data : List ProtoEntry) : List (String × Nat) :=
  data.filterMap entryPair

/-- The lookup predicate of `cls.objects.get_or_create(name=.., port=.., builtin=True)`:
all three keyword filters must match. -/
def matchBuiltin (n : String) (p : Nat) (r : Protocol) : Bool :=
  r.name == n && r.port == p && r.builtin

/-- The (name, port) key of a catalog row. -/
def pairOf (r : Protocol) : String × Nat :=
  (r.name, r.port)

/-- The catalog state: the persisted `Protocol` rows, in insertion order. -/
abbrev Catalog := List Protocol

/-- Every row of the catalog carries `builtin = true`. -/
def AllBuiltin (cat : Catalog) : Prop :=
  ∀ r ∈ cat, r.builtin = true

/-- Django `get_or_create` with filters (name, port, builtin=True): return an
existing row matching all three, otherwise insert (name, port, true).  The
insert violates the `unique_together = (name, port)` constraint when a row
with the same (name, port) but `builtin = false` already exists, which
surfaces as an integrity error. -/
def get_or_create (cat : Catalog) (n : String) (p : Nat) :
    Except String (Protocol × Catalog) :=
  match cat.find? (matchBuiltin n p) with
  | some r => .ok (r, cat)
  | none =>
    if cat.any (fun r => r.name == n && r.port == p) then
      .error "IntegrityError: duplicate key for name and port"
    else
      .ok (⟨n, p, true⟩, cat ++ [⟨n, p, true⟩])

/-- Model of `Protocol.get_or_create_protocols`: walk the entry list, skip
entries whose name or port is missing or falsy, get-or-create each remaining
(name, port, builtin=true) row, and collect the rows.  An exception aborts
the walk but keeps the catalog changes already made; the collected list is
only returned on success. -/
def get_or_create_protocols :
    List ProtoEntry → Catalog → Except String (List Protocol) × Catalog
  | [], cat => (.ok [], cat)
  | d :: ds, cat =>
    match entryPair d with
    | none => get_or_create_protocols ds cat
    | some (n, p) =>
      match get_or_create cat n p with
      | .error e => (.error e, cat)
      | .ok (r, cat2) =>
        match get_or_create_protocols ds cat2 with
        | (.ok rs, cat3) => (.ok (r :: rs), cat3)
        | (.error e, cat3) => (.error e, cat3)

/-- One supported protocol of a terminal type, as listed by the fixed
type-to-protocols mapper: a protocol identifier and its canonical default
port. -/
structure SupportedProtocol where
  name : String
  default_port : Nat
deriving DecidableEq, Repr

/-- The shape of `const.terminal_type_protocols_mapper`: a partial map from
terminal type to its supported protocols. -/
abbrev TypeProtocolsMapper := String → Option (List SupportedProtocol)

/-- Model of `Protocol.get_default_protocols_data`: assert that the type has
a registered entry in the mapper (an unregistered type raises, surfaced to
the caller), then build one dict per supported protocol with the canonical
default port and `builtin = True`. -/
def get_default_protocols_data (mapper : TypeProtocolsMapper) (ttype : String) :
    Except String (List ProtoEntry) :=
  match mapper ttype with
  | none => .error "AssertionError: no support terminal type"
  | some sps => .ok (sps.map fun p => ⟨some p.name, some p.default_port, true⟩)

/-- Model of `Protocol.get_default_protocols`: compose the default data with
get-or-create seeding; the assertion error propagates with the catalog
untouched. -/
def get_default_protocols (mapper : TypeProtocolsMapper) (ttype : String)
    (cat : Catalog) : Except String (List Protocol) × Catalog :=
  match get_default_protocols_data mapper ttype with
  | .error e => (.error e, cat)
  | .ok data => get_or_create_protocols data cat

/-- An owning account (model `User` as consumed here): only its enabled flag
matters to this subsystem. -/
structure User where
  uid : Nat
  is_active : Bool
deriving DecidableEq, Repr

/-- The terminal record (model `Terminal`): the fields the verified
operations read or write.  `protocols` is the many-to-many membership of the
terminal, kept duplicate-free. -/
structure Terminal where
  id : Nat
  name : String
  ttype : String
  command_storage : String
  replay_storage : String
  user : Option User
  protocols : List Protocol
  is_accepted : Bool
  is_deleted : Bool
deriving DecidableEq, Repr

/-- Model of the `Terminal.is_active` property: true iff an owning account
exists and is enabled. -/
def Terminal.is_active (t : Terminal) : Bool :=
  match t.user with
  | some u => u.is_active
  | none => false

/-! ## Liveness tracker -/

/-- One cache entry: the stored value and its absolute expiry instant. -/
structure CacheEntry where
  value : Bool
  expires_at : Nat
deriving DecidableEq, Repr

/-- The shared expiring key/value store, newest entry first. -/
abbrev Cache := List (String × CacheEntry)

/-- The liveness key of a terminal: `TERMINAL_ALIVE_{id}`. -/
def ALIVE_KEY (id : Nat) : String :=
  "TERMINAL_ALIVE_" ++ toString id

/-- Model of `cache.set(key, value, ttl)` at clock instant `now`: the key
maps to the value until `now + ttl`. -/
def cache_set (c : Cache) (key : String) (value : Bool) (ttl now : Nat) : Cache :=
  (key, ⟨value, now + ttl⟩) :: c.filter (fun kv => kv.1 != key)

/-- Model of `cache.get(key, default)` at clock instant `now`: the stored
value while unexpired, the default once the entry has expired or is
absent. -/
def cache_get (c : Cache) (key : String) (dflt : Bool) (now : Nat) : Bool :=
  match c.find? (fun kv => kv.1 == key) with
  | some kv => if now < kv.2.expires_at then kv.2.value else dflt
  | none => dflt

/-- Model of `TerminalStatusMixin.set_alive`: set the presence flag under the
terminal's liveness key with the given ttl (default 120 seconds). -/
def set_alive (c : Cache) (id : Nat) (now : Nat) (ttl : Nat := 120) : Cache :=
  cache_set c (ALIVE_KEY id) true ttl now

/-- Model of `TerminalStatusMixin.is_alive`: read the presence flag, default
false. -/
def is_alive (c : Cache) (id : Nat) (now : Nat) : Bool :=
  cache_get c (ALIVE_KEY id) false now

/-! ## Storage resolver -/

/-- A registered storage backend: a name and its configuration, modelled as
a key/value snapshot. -/
structure StorageBackend where
  name : String
  config : List (String × String)
deriving DecidableEq, Repr

/-- The process-wide settings the storage resolver consumes: the two default
storage configurations. -/
structure Settings where
  DEFAULT_TERMINAL_COMMAND_STORAGE : List (String × String)
  DEFAULT_TERMINAL_REPLAY_STORAGE : List (String × String)
deriving DecidableEq, Repr

/-- Model of `StorageMixin.get_command_storage`:
`CommandStorage.objects.filter(name=..).first()`. -/
def get_command_storage (reg : List StorageBackend) (t : Terminal) :
    Option StorageBackend :=
  (reg.filter (fun s => s.name == t.command_storage)).head?

/-- Model of `StorageMixin.get_command_storage_config`: the named backend's
config when the name resolves, the system default otherwise. -/
def get_command_storage_config (st : Settings) (reg : List StorageBackend)
    (t : Terminal) : List (String × String) :=
  match get_command_storage reg t with
  | some s => s.config
  | none => st.DEFAULT_TERMINAL_COMMAND_STORAGE

/-- Model of `StorageMixin.get_replay_storage`. -/
def get_replay_storage (reg : List StorageBackend) (t : Terminal) :
    Option StorageBackend :=
  (reg.filter (fun s => s.name == t.replay_storage)).head?

/-- Model of `StorageMixin.get_replay_storage_config`. -/
def get_replay_storage_config (st : Settings) (reg : List StorageBackend)
    (t : Terminal) : List (String × String) :=
  match get_replay_storage reg t with
  | some s => s.config
  | none => st.DEFAULT_TERMINAL_REPLAY_STORAGE

/-! ## Deletion -/

/-- The account subsystem's persisted state, opaque to the registry. -/
abbrev UserStore := List User

/-- The behaviour of `user.delete()` as seen from here: it may succeed or
raise, and may change the account store either way. -/
abbrev AccountDeleter := UserStore → User → Except String Unit × UserStore

/-- The persisted terminal records, keyed by id. -/
abbrev TerminalDB := List (Nat × Terminal)

/-- Model of `terminal.save()`: insert-or-replace the record under its
id. -/
def save (db : TerminalDB) (t : Terminal) : TerminalDB :=
  (t.id, t) :: db.filter (fun kv => kv.1 != t.id)

/-- Model of `Terminal.delete`: when an owning account exists, delete it
first — an exception there propagates before any field of the terminal is
touched and before `save` runs, so the terminal record is left exactly as it
was; otherwise clear the account link, set the deletion flag and persist. -/
def Terminal.delete (accountDelete : AccountDeleter) (t : Terminal)
    (ustore : UserStore) (db : TerminalDB) :
    Except String Terminal × UserStore × TerminalDB :=
  match t.user with
  | some u =>
    match accountDelete ustore u with
    | (.error e, ustore2) => (.error e, ustore2, db)
    | (.ok _, ustore2) =>
      let t2 := { t with user := none, is_deleted := true }
      (.ok t2, ustore2, save db t2)
  | none =>
    let t2 := { t with user := none, is_deleted := true }
    (.ok t2, ustore, save db t2)

/-! ## Protocol reset and status label -/

/-- Model of `Terminal.reset_protocols_to_default`: fetch the type's default
protocols (propagating the unsupported-type error with the terminal and the
membership untouched) and replace the protocol set wholesale with them; the
many-to-many `set` keeps each distinct row once. -/
def Terminal.reset_protocols_to_default (mapper : TypeProtocolsMapper)
    (t : Terminal) (cat : Catalog) : Except String Terminal × Catalog :=
  match get_default_protocols mapper t.ttype cat with
  | (.error e, cat2) => (.error e, cat2)
  | (.ok ps, cat2) => (.ok { t with protocols := ps.dedup }, cat2)

/-- The status labels of `Terminal.__str__` (spec enum
NotAccepted/Deleted/Disabled/Offline/Active). -/
inductive Label
  | NotAccepted
  | Deleted
  | Disabled
  | Offline
  | Active
deriving DecidableEq, Repr

/-- Model of the status computation of `Terminal.__str__`: start from
Active, then the if/elif chain reassigns in source order; liveness is read
from the cache at the current instant. -/
def Terminal.statusLabel (t : Terminal) (c : Cache) (now : Nat) : Label :=
  let status := Label.Active
  if !t.is_accepted then Label.NotAccepted
  else if t.is_deleted then Label.Deleted
  else if !t.is_active then Label.Disabled
  else if !(is_alive c t.id now) then Label.Offline
  else status

/-- The status label exactly as the spec words it: a strict priority chain
over the five observations — not accepted, deleted, account absent or
disabled, not alive, else active. -/
def statusLabelSpec (accepted deleted hasAccount accountEnabled alive : Bool) :
    Label :=
  if !accepted then .NotAccepted
  else if deleted then .Deleted
  else if !hasAccount || !accountEnabled then .Disabled
  else if !alive then .Offline
  else .Active

/-! ## Concrete data for witnesses -/

/-- Modelled from the spec: the fixed mapping
`const.terminal_type_protocols_mapper` is not part of the excerpt; the spec's
example gives terminal type "koko" the protocol set ssh with canonical
default port 22, and leaves other types to the same shape. -/
def specMapper : TypeProtocolsMapper :=
  fun ttype => if ttype == "koko" then some [⟨"ssh", 22⟩] else none

/-- A sample terminal used by concrete witnesses. -/
def demoTerminal : Terminal :=
  { id := 7
    name := "gateway-1"
    ttype := "koko"
    command_storage := "default"
    replay_storage := "default"
    user := some ⟨1, true⟩
    protocols := [⟨"vnc", 5900, false⟩]
    is_accepted := true
    is_deleted := false }

/-- The terminal of the C1 priority example: not accepted, deleted, account
disabled, and never marked alive. -/
def badTerminal : Terminal :=
  { demoTerminal with
    user := some ⟨2, false⟩
    is_accepted := false
    is_deleted := true }

/-- An account deleter that always raises, leaving the account store as it
was. -/
def failDeleter : AccountDeleter :=
  fun us _ => (.error "boom", us)

/-- An account deleter that succeeds and removes the account from the
store. -/
def okDeleter : AccountDeleter :=
  fun us u => (.ok (), us.filter (fun v => v.uid != u.uid))

/-- A terminal with no owning account. -/
def orphanTerminal : Terminal :=
  { demoTerminal with user := none }

/-- The record a successful delete of `orphanTerminal` produces. -/
def deletedTerminal : Terminal :=
  { orphanTerminal with is_deleted := true }

/-- Sample settings for the storage-fallback witnesses. -/
def demoSettings : Settings :=
  { DEFAULT_TERMINAL_COMMAND_STORAGE := [("TYPE", "es"), ("HOSTS", "http://es")]
    DEFAULT_TERMINAL_REPLAY_STORAGE := [("TYPE", "server")] }

/-- A backend registry that does not contain the name "default" used by
`demoTerminal`. -/
def demoRegistry : List StorageBackend :=
  [⟨"minio-store", [("TYPE", "oss")]⟩]

/-- Seeding entries for the witnesses: two copies of ssh/22 around a
malformed entry with no name. -/
def demoEntries : List ProtoEntry :=
  [⟨some "ssh", some 22, true⟩, ⟨none, some 80, true⟩,
    ⟨some "ssh", some 22, true⟩]

/-- A `find?` hit in a list stays the hit after appending more elements. -/
theorem find?_stable {α : Type} (f : α → Bool) (l l2 : List α) (a : α)
    (h : l.find? f = some a) : (l ++ l2).find? f = some a := by
  rw [List.find?_append, h]; rfl

/-- Skipping case of the seeding walk: a malformed entry changes nothing. -/
theorem goc_cons_skip (d : ProtoEntry) (ds : List ProtoEntry) (cat : Catalog)
    (hd : entryPair d = none) :
    get_or_create_protocols (d :: ds) cat = get_or_create_protocols ds cat := by
  simp only [get_or_create_protocols, hd]

/-- Error case of the seeding walk: an integrity error aborts it with the
catalog as it stood. -/
theorem goc_cons_err (d : ProtoEntry) (ds : List ProtoEntry) (cat : Catalog)
    (n : String) (p : Nat) (e : String)
    (hd : entryPair d = some (n, p)) (hg : get_or_create cat n p = .error e) :
    get_or_create_protocols (d :: ds) cat = (.error e, cat) := by
  simp only [get_or_create_protocols, hd, hg]

/-- Success case of the seeding walk: the row is consed onto the rest of the
walk's rows. -/
theorem goc_cons_ok (d : ProtoEntry) (ds : List ProtoEntry) (cat : Catalog)
    (n : String) (p : Nat) (r : Protocol) (cat1 : Catalog)
    (hd : entryPair d = some (n, p)) (hg : get_or_create cat n p = .ok (r, cat1)) :
    get_or_create_protocols (d :: ds) cat =
      match get_or_create_protocols ds cat1 with
      | (.ok rs, cat3) => (.ok (r :: rs), cat3)
      | (.error e, cat3) => (.error e, cat3) := by
  simp only [get_or_create_protocols, hd, hg]

/-- The final catalog of one walk step ignores the success of the rest. -/
theorem goc_cons_snd (d : ProtoEntry) (ds : List ProtoEntry) (cat : Catalog)
    (n : String) (p : Nat) (r : Protocol) (cat1 : Catalog)
    (hd : entryPair d = some (n, p)) (hg : get_or_create cat n p = .ok (r, cat1)) :
    (get_or_create_protocols (d :: ds) cat).2 =
      (get_or_create_protocols ds cat1).2 := by
  rw [goc_cons_ok d ds cat n p r cat1 hd hg]
  rcases get_or_create_protocols ds cat1 with ⟨res, cat3⟩
  cases res <;> rfl

/-- A successful `get_or_create` only appends rows to the catalog. -/
theorem get_or_create_extends (cat : Catalog) (n : String) (p : Nat)
    (r : Protocol) (cat1 : Catalog)
    (h : get_or_create cat n p = .ok (r, cat1)) : ∃ ext, cat1 = cat ++ ext := by
  simp only [get_or_create] at h
  cases hf : cat.find? (matchBuiltin n p) with
  | some r0 =>
    rw [hf] at h
    simp only [Except.ok.injEq, Prod.mk.injEq] at h
    exact ⟨[], by rw [← h.2]; simp⟩
  | none =>
    rw [hf] at h
    by_cases ha : cat.any (fun r => r.name == n && r.port == p) = true
    · simp [ha] at h
    · simp only [Bool.not_eq_true] at ha
      simp only [ha, Bool.false_eq_true, if_false, Except.ok.injEq,
        Prod.mk.injEq] at h
      exact ⟨[⟨n, p, true⟩], h.2.symm⟩

/-- A successful `get_or_create` returns the first builtin (name, port) match
of the resulting catalog, and that row carries the requested name and port
and builtin true. -/
theorem get_or_create_find (cat : Catalog) (n : String) (p : Nat)
    (r : Protocol) (cat1 : Catalog)
    (h : get_or_create cat n p = .ok (r, cat1)) :
    cat1.find? (matchBuiltin n p) = some r ∧
      r.name = n ∧ r.port = p ∧ r.builtin = true := by
  simp only [get_or_create] at h
  cases hf : cat.find? (matchBuiltin n p) with
  | some r0 =>
    rw [hf] at h
    simp only [Except.ok.injEq, Prod.mk.injEq] at h
    obtain ⟨h1, h2⟩ := h
    subst h1; subst h2
    have hm := List.find?_some hf
    simp only [matchBuiltin, Bool.and_eq_true, beq_iff_eq] at hm
    exact ⟨hf, hm.1.1, hm.1.2, hm.2⟩
  | none =>
    rw [hf] at h
    by_cases ha : cat.any (fun r => r.name == n && r.port == p) = true
    · simp [ha] at h
    · simp only [Bool.not_eq_true] at ha
      simp only [ha, Bool.false_eq_true, if_false, Except.ok.injEq,
        Prod.mk.injEq] at h
      obtain ⟨h1, h2⟩ := h
      subst h1; subst h2
      refine ⟨?_, rfl, rfl, rfl⟩
      rw [List.find?_append, hf]
      simp [List.find?, matchBuiltin]

/-- When a builtin match is already present, `get_or_create` is a read-only
success returning that match. -/
theorem get_or_create_of_find (cat : Catalog) (n : String) (p : Nat)
    (r : Protocol) (h : cat.find? (matchBuiltin n p) = some r) :
    get_or_create cat n p = .ok (r, cat) := by
  simp [get_or_create, h]

/-- On an all-builtin catalog `get_or_create` never hits the integrity
error, and the catalog stays all-builtin. -/
theorem get_or_create_success (cat : Catalog) (n : String) (p : Nat)
    (hb : AllBuiltin cat) :
    ∃ r cat1, get_or_create cat n p = .ok (r, cat1) ∧ AllBuiltin cat1 := by
  cases hf : cat.find? (matchBuiltin n p) with
  | some r0 => exact ⟨r0, cat, by simp [get_or_create, hf], hb⟩
  | none =>
    have ha : cat.any (fun r => r.name == n && r.port == p) = false := by
      rw [List.any_eq_false]
      intro r hr hcon
      have hm : matchBuiltin n p r = true := by
        simp only [matchBuiltin, Bool.and_eq_true]
        simp only [Bool.and_eq_true] at hcon
        exact ⟨hcon, hb r hr⟩
      exact (List.find?_eq_none.mp hf r hr) hm
    refine ⟨⟨n, p, true⟩, cat ++ [⟨n, p, true⟩],
      by simp [get_or_create, hf, ha], ?_⟩
    intro r hr
    rcases List.mem_append.mp hr with h | h
    · exact hb r h
    · simp only [List.mem_singleton] at h
      rw [h]

/-- The seeding walk only appends rows to the catalog. -/
theorem goc_extends (data : List ProtoEntry) (cat : Catalog) :
    ∃ ext, (get_or_create_protocols data cat).2 = cat ++ ext := by
  induction data generalizing cat with
  | nil => exact ⟨[], by simp [get_or_create_protocols]⟩
  | cons d ds ih =>
    cases hd : entryPair d with
    | none => rw [goc_cons_skip d ds cat hd]; exact ih cat
    | some np =>
      obtain ⟨n, p⟩ := np
      cases hg : get_or_create cat n p with
      | error e => rw [goc_cons_err d ds cat n p e hd hg]; exact ⟨[], by simp⟩
      | ok rc =>
        obtain ⟨r, cat1⟩ := rc
        rw [goc_cons_snd d ds cat n p r cat1 hd hg]
        obtain ⟨ext1, h1⟩ := get_or_create_extends cat n p r cat1 hg
        obtain ⟨ext2, h2⟩ := ih cat1
        exact ⟨ext1 ++ ext2, by rw [h2, h1, List.append_assoc]⟩

/-- Re-running the seeding walk on its own final catalog changes nothing,
whether or not the first walk hit an integrity error. -/
theorem goc_state_idem (data : List ProtoEntry) (cat : Catalog) :
    (get_or_create_protocols data (get_or_create_protocols data cat).2).2 =
      (get_or_create_protocols data cat).2 := by
  induction data generalizing cat with
  | nil => simp [get_or_create_protocols]
  | cons d ds ih =>
    cases hd : entryPair d with
    | none =>
      rw [goc_cons_skip d ds _ hd, goc_cons_skip d ds cat hd]
      exact ih cat
    | some np =>
      obtain ⟨n, p⟩ := np
      cases hg : get_or_create cat n p with
      | error e =>
        have h1 := goc_cons_err d ds cat n p e hd hg
        rw [h1]
        show (get_or_create_protocols (d :: ds) cat).2 = cat
        rw [h1]
      | ok rc =>
        obtain ⟨r, cat1⟩ := rc
        rw [goc_cons_snd d ds cat n p r cat1 hd hg]
        obtain ⟨hf1, hrn, hrp, hrb⟩ := get_or_create_find cat n p r cat1 hg
        obtain ⟨ext, hext⟩ := goc_extends ds cat1
        have hfF : ((get_or_create_protocols ds cat1).2).find?
            (matchBuiltin n p) = some r := by
          rw [hext]; exact find?_stable _ cat1 ext r hf1
        have hg2 := get_or_create_of_find _ n p r hfF
        rw [goc_cons_snd d ds _ n p r _ hd hg2]
        exact ih cat1

/-- A successful `get_or_create` preserves uniqueness of (name, port)
pairs: a row is only inserted when no row with its pair exists. -/
theorem get_or_create_nodup (cat : Catalog) (n : String) (p : Nat)
    (r : Protocol) (cat1 : Catalog)
    (h : get_or_create cat n p = .ok (r, cat1))
    (hn : (cat.map pairOf).Nodup) : (cat1.map pairOf).Nodup := by
  simp only [get_or_create] at h
  cases hf : cat.find? (matchBuiltin n p) with
  | some r0 =>
    rw [hf] at h
    simp only [Except.ok.injEq, Prod.mk.injEq] at h
    rw [← h.2]; exact hn
  | none =>
    rw [hf] at h
    by_cases ha : cat.any (fun r => r.name == n && r.port == p) = true
    · simp [ha] at h
    · simp only [Bool.not_eq_true] at ha
      simp only [ha, Bool.false_eq_true, if_false, Except.ok.injEq,
        Prod.mk.injEq] at h
      rw [← h.2, List.map_append, List.nodup_append]
      refine ⟨hn, by simp, ?_⟩
      intro q hq hq2
      simp only [List.map_cons, List.map_nil, List.mem_singleton] at hq2
      obtain ⟨r2, hr2, hr2q⟩ := List.mem_map.mp hq
      have hcon := List.any_eq_false.mp ha r2 hr2
      apply hcon
      rw [hq2] at hr2q
      simp only [pairOf, Prod.mk.injEq] at hr2q
      simp [hr2q.1, hr2q.2]

/-- The seeding walk preserves uniqueness of (name, port) pairs in the
catalog. -/
theorem goc_nodup (data : List ProtoEntry) (cat : Catalog)
    (hn : (cat.map pairOf).Nodup) :
    (((get_or_create_protocols data cat).2).map pairOf).Nodup := by
  induction data generalizing cat with
  | nil => simpa [get_or_create_protocols] using hn
  | cons d ds ih =>
    cases hd : entryPair d with
    | none => rw [goc_cons_skip d ds cat hd]; exact ih cat hn
    | some np =>
      obtain ⟨n, p⟩ := np
      cases hg : get_or_create cat n p with
      | error e => rw [goc_cons_err d ds cat n p e hd hg]; exact hn
      | ok rc =>
        obtain ⟨r, cat1⟩ := rc
        rw [goc_cons_snd d ds cat n p r cat1 hd hg]
        exact ih cat1 (get_or_create_nodup cat n p r cat1 hg hn)

/-- On an all-builtin catalog the seeding walk succeeds, keeps the catalog
all-builtin, and collects exactly one builtin row per well-formed
(name, port) pair of the input, each row being the first match in the final
catalog. -/
theorem goc_success (data : List ProtoEntry) (cat : Catalog)
    (hb : AllBuiltin cat) :
    ∃ rs cat2, get_or_create_protocols data cat = (.ok rs, cat2) ∧
      AllBuiltin cat2 ∧
      (∀ r ∈ rs, r.builtin = true ∧
        cat2.find? (matchBuiltin r.name r.port) = some r) ∧
      (∀ q, q ∈ rs.map pairOf ↔ q ∈ wfPairs data) := by
  induction data generalizing cat with
  | nil =>
    refine ⟨[], cat, by simp [get_or_create_protocols], hb, by simp, ?_⟩
    intro q; simp [wfPairs]
  | cons d ds ih =>
    cases hd : entryPair d with
    | none =>
      obtain ⟨rs, cat2, h1, h2, h3, h4⟩ := ih cat hb
      refine ⟨rs, cat2, ?_, h2, h3, ?_⟩
      · rw [goc_cons_skip d ds cat hd]; exact h1
      · intro q
        rw [h4 q]
        simp [wfPairs, List.filterMap_cons, hd]
    | some np =>
      obtain ⟨n, p⟩ := np
      obtain ⟨r, cat1, hg, hb1⟩ := get_or_create_success cat n p hb
      obtain ⟨rs, cat2, h1, h2, h3, h4⟩ := ih cat1 hb1
      obtain ⟨hf1, hrn, hrp, hrb⟩ := get_or_create_find cat n p r cat1 hg
      have hext : ∃ ext, cat2 = cat1 ++ ext := by
        obtain ⟨ext, he⟩ := goc_extends ds cat1
        exact ⟨ext, by rw [← he, h1]⟩
      obtain ⟨ext, he⟩ := hext
      have hf2 : cat2.find? (matchBuiltin n p) = some r := by
        rw [he]; exact find?_stable _ cat1 ext r hf1
      refine ⟨r :: rs, cat2, ?_, h2, ?_, ?_⟩
      · rw [goc_cons_ok d ds cat n p r cat1 hd hg, h1]
      · intro x hx
        rcases List.mem_cons.mp hx with hx | hx
        · subst hx
          exact ⟨hrb, by rw [hrn, hrp]; exact hf2⟩
        · exact h3 x hx
      · intro q
        simp only [List.map_cons, List.mem_cons, wfPairs,
          List.filterMap_cons, hd]
        have hpr : pairOf r = (n, p) := by simp [pairOf, hrn, hrp]
        rw [hpr]
        simp only [wfPairs] at h4
        rw [h4 q]

/-- The seeding walk gives the same result and state as the walk over only
the well-formed entries: malformed entries are skipped without any
effect. -/
theorem goc_filter_wf (data : List ProtoEntry) (cat : Catalog) :
    get_or_create_protocols data cat =
      get_or_create_protocols (data.filter fun d => (entryPair d).isSome) cat := by
  induction data generalizing cat with
  | nil => rfl
  | cons d ds ih =>
    cases hd : entryPair d with
    | none =>
      rw [goc_cons_skip d ds cat hd, List.filter_cons]
      simp only [hd, Option.isSome_none, Bool.false_eq_true, if_false]
      exact ih cat
    | some np =>
      obtain ⟨n, p⟩ := np
      rw [List.filter_cons]
      simp only [hd, Option.isSome_some, if_true]
      cases hg : get_or_create cat n p with
      | error e =>
        rw [goc_cons_err d ds cat n p e hd hg,
          goc_cons_err d _ cat n p e hd hg]
      | ok rc =>
        obtain ⟨r, cat1⟩ := rc
        rw [goc_cons_ok d ds cat n p r cat1 hd hg,
          goc_cons_ok d _ cat n p r cat1 hd hg, ih cat1]

/-- One supported protocol list with nonempty names and nonzero ports turns
into well-formed pairs verbatim. -/
theorem wfPairs_default_data (sps : List SupportedProtocol)
    (h : ∀ p ∈ sps, p.name.isEmpty = false ∧ p.default_port ≠ 0) :
    wfPairs (sps.map fun p => ⟨some p.name, some p.default_port, true⟩) =
      sps.map (fun p => (p.name, p.default_port)) := by
  induction sps with
  | nil => rfl
  | cons q qs ih =>
    have hq := h q (List.mem_cons_self q qs)
    have hcond : (q.name.isEmpty || q.default_port == 0) = false := by
      rw [hq.1, Bool.false_or]
      exact beq_eq_false_iff_ne.mpr hq.2
    have ihh := ih (fun p hp => h p (List.mem_cons_of_mem q hp))
    simp only [wfPairs] at ihh ⊢
    simp [List.filterMap_cons, entryPair, hcond, ihh]

/-- Persisting a record twice changes nothing after the first time. -/
theorem save_save (db : TerminalDB) (t : Terminal) :
    save (save db t) t = save db t := by
  simp [save, List.filter_filter]

/-- C1: the status label of `Terminal.__str__` is computed in strict
priority order — not accepted first, then deleted, then account absent or
disabled, then not alive, else active; in particular a terminal with
acceptance false, deletion true, a disabled account and no liveness flag
reports NotAccepted. -/
theorem statusLabel_priority_order :
    (∀ (t : Terminal) (c : Cache) (now : Nat),
      t.statusLabel c now =
        statusLabelSpec t.is_accepted t.is_deleted t.user.isSome
          ((t.user.map fun u => u.is_active).getD false) (is_alive c t.id now)) ∧
    badTerminal.statusLabel [] 0 = Label.NotAccepted := by
  constructor
  · intro t c now
    rcases ht : t.user with _ | ⟨uid, uact⟩ <;>
      cases ha : t.is_accepted <;> cases hd : t.is_deleted <;>
      cases hv : is_alive c t.id now <;>
      simp [Terminal.statusLabel, statusLabelSpec, Terminal.is_active,
        ht, ha, hd, hv]
  · rfl

/-- C3: when the owning account exists and deleting it raises, the whole
`Terminal.delete` fails with that error and the terminal store is exactly
the one from before the call — the deletion flag and the account link of
the persisted record are untouched. -/
theorem delete_aborts_on_account_failure (f : AccountDeleter) (t : Terminal)
    (ustore : UserStore) (db : TerminalDB) (u : User) (e : String)
    (ustore2 : UserStore)
    (hu : t.user = some u) (hf : f ustore u = (.error e, ustore2)) :
    Terminal.delete f t ustore db = (.error e, ustore2, db) := by
  simp only [Terminal.delete, hu, hf]

/-- C3 witness. -/
theorem delete_aborts_on_account_failure_witness :
    Terminal.delete failDeleter demoTerminal [⟨1, true⟩] [] =
      (.error "boom", [⟨1, true⟩], []) :=
  delete_aborts_on_account_failure failDeleter demoTerminal [⟨1, true⟩] []
    ⟨1, true⟩ "boom" [⟨1, true⟩] rfl rfl

/-- C4: a successful `Terminal.delete` on a terminal with an owning account
deletes that account through the account subsystem, clears the link, sets
the deletion flag, and persists the updated record. -/
theorem delete_cascades_and_marks (f : AccountDeleter) (t : Terminal)
    (ustore : UserStore) (db : TerminalDB) (u : User) (ustore2 : UserStore)
    (hu : t.user = some u) (hf : f ustore u = (.ok (), ustore2)) :
    ∃ t2, Terminal.delete f t ustore db = (.ok t2, ustore2, save db t2) ∧
      t2.user = none ∧ t2.is_deleted = true := by
  refine ⟨{ t with user := none, is_deleted := true }, ?_, rfl, rfl⟩
  simp only [Terminal.delete, hu, hf]

/-- C4 witness. -/
theorem delete_cascades_and_marks_witness :
    ∃ t2, Terminal.delete okDeleter demoTerminal [⟨1, true⟩] [] =
        (.ok t2, [], save [] t2) ∧
      t2.user = none ∧ t2.is_deleted = true :=
  delete_cascades_and_marks okDeleter demoTerminal [⟨1, true⟩] []
    ⟨1, true⟩ [] rfl rfl

/-- C10: `Terminal.delete` is total and idempotent on terminals without an
owning account — it raises nothing, touches no account state, and leaves
the link cleared and the deletion flag set; and re-deleting right after a
successful delete changes nothing. -/
theorem delete_idempotent (f : AccountDeleter) (t : Terminal)
    (us : UserStore) (db : TerminalDB) :
    (t.user = none →
      Terminal.delete f t us db =
        (.ok { t with user := none, is_deleted := true }, us,
          save db { t with user := none, is_deleted := true })) ∧
    (∀ t1 us1 db1, Terminal.delete f t us db = (.ok t1, us1, db1) →
      Terminal.delete f t1 us1 db1 = (.ok t1, us1, db1)) := by
  constructor
  · intro hu
    simp only [Terminal.delete, hu]
  · intro t1 us1 db1 h
    rcases ht : t.user with _ | u
    · simp only [Terminal.delete, ht, Prod.mk.injEq, Except.ok.injEq] at h
      obtain ⟨h1, h2, h3⟩ := h
      subst h1; subst h2; subst h3
      simp [Terminal.delete, save_save]
    · rcases hf : f us u with ⟨res, us2⟩
      cases res with
      | error e =>
        simp only [Terminal.delete, ht, hf] at h
        exact Except.noConfusion (congrArg Prod.fst h)
      | ok r =>
        simp only [Terminal.delete, ht, hf, Prod.mk.injEq, Except.ok.injEq] at h
        obtain ⟨h1, h2, h3⟩ := h
        subst h1; subst h2; subst h3
        simp [Terminal.delete, save_save]

/-- C6: `get_default_protocols_data` fails exactly on terminal types with no
registered entry in the type-to-protocols mapper, the failure propagates to
`get_default_protocols` with the catalog untouched, and on every mapped type
it returns one entry per supported protocol, carrying the canonical default
port and builtin true. -/
theorem default_protocols_data_spec (mapper : TypeProtocolsMapper)
    (ttype : String) :
    ((∃ e, get_default_protocols_data mapper ttype = .error e) ↔
      mapper ttype = none) ∧
    (∀ sps, mapper ttype = some sps →
      get_default_protocols_data mapper ttype =
        .ok (sps.map fun p => ⟨some p.name, some p.default_port, true⟩)) ∧
    (mapper ttype = none → ∀ cat, ∃ e,
      get_default_protocols mapper ttype cat = (.error e, cat)) := by
  rcases h : mapper ttype with _ | sps <;>
    simp [get_default_protocols_data, get_default_protocols, h]

/-- C6 witness. -/
theorem default_protocols_data_spec_witness :
    get_default_protocols_data specMapper "koko" =
      .ok [⟨some "ssh", some 22, true⟩] :=
  (default_protocols_data_spec specMapper "koko").2.1 [⟨"ssh", 22⟩] (by decide)

/-- C7: a terminal whose configured command-storage name resolves to no
backend receives exactly the process-wide default command-storage
configuration, and likewise for replay storage; the lookup is total and
raises nothing. -/
theorem storage_config_fallback (st : Settings) (reg : List StorageBackend)
    (t : Terminal)
    (hc : ∀ s ∈ reg, s.name ≠ t.command_storage)
    (hr : ∀ s ∈ reg, s.name ≠ t.replay_storage) :
    get_command_storage_config st reg t =
      st.DEFAULT_TERMINAL_COMMAND_STORAGE ∧
    get_replay_storage_config st reg t =
      st.DEFAULT_TERMINAL_REPLAY_STORAGE := by
  constructor
  · have hnil : reg.filter (fun s => s.name == t.command_storage) = [] := by
      rw [List.filter_eq_nil_iff]
      intro s hs
      simp [hc s hs]
    simp [get_command_storage_config, get_command_storage, hnil]
  · have hnil : reg.filter (fun s => s.name == t.replay_storage) = [] := by
      rw [List.filter_eq_nil_iff]
      intro s hs
      simp [hr s hs]
    simp [get_replay_storage_config, get_replay_storage, hnil]

/-- C7 witness. -/
theorem storage_config_fallback_witness :
    get_command_storage_config demoSettings demoRegistry demoTerminal =
      demoSettings.DEFAULT_TERMINAL_COMMAND_STORAGE ∧
    get_replay_storage_config demoSettings demoRegistry demoTerminal =
      demoSettings.DEFAULT_TERMINAL_REPLAY_STORAGE :=
  storage_config_fallback demoSettings demoRegistry demoTerminal
    (by decide) (by decide)

/-- C8: after `set_alive` with the given ttl, `is_alive` reads true at every
instant before the ttl elapses and false from the expiry instant on, with no
explicit reset; the ttl defaults to 120 seconds. -/
theorem set_alive_roundtrip (c : Cache) (id now now2 ttl : Nat) :
    (now2 < now + ttl → is_alive (set_alive c id now ttl) id now2 = true) ∧
    (now + ttl ≤ now2 → is_alive (set_alive c id now ttl) id now2 = false) ∧
    set_alive c id now = set_alive c id now 120 := by
  refine ⟨?_, ?_, rfl⟩
  · intro hlt
    simp [is_alive, set_alive, cache_set, cache_get, List.find?, hlt]
  · intro hge
    simp [is_alive, set_alive, cache_set, cache_get, List.find?,
      Nat.not_lt.mpr hge]

/-- C8 witness. -/
theorem set_alive_roundtrip_witness :
    is_alive (set_alive [] 9 0 120) 9 5 = true ∧
    is_alive (set_alive [] 9 0 120) 9 120 = false :=
  ⟨(set_alive_roundtrip [] 9 0 5 120).1 (by decide),
    (set_alive_roundtrip [] 9 0 120 120).2.1 (by decide)⟩

/-- C10 witness. -/
theorem delete_idempotent_witness :
    Terminal.delete failDeleter orphanTerminal [] [] =
      (.ok deletedTerminal, [], save [] deletedTerminal) ∧
    Terminal.delete failDeleter deletedTerminal [] (save [] deletedTerminal) =
      (.ok deletedTerminal, [], save [] deletedTerminal) := by
  have h1 := (delete_idempotent failDeleter orphanTerminal [] []).1 rfl
  exact ⟨h1, (delete_idempotent failDeleter orphanTerminal [] []).2
    deletedTerminal [] (save [] deletedTerminal) h1⟩

/-- C5: the seeding walk is idempotent on the catalog — running it twice on
the same entries leaves the catalog exactly as one run does — and it never
introduces two rows with the same (name, port) pair. -/
theorem get_or_create_protocols_idempotent (data : List ProtoEntry)
    (cat : Catalog) :
    (get_or_create_protocols data (get_or_create_protocols data cat).2).2 =
      (get_or_create_protocols data cat).2 ∧
    ((cat.map pairOf).Nodup →
      (((get_or_create_protocols data cat).2).map pairOf).Nodup) :=
  ⟨goc_state_idem data cat, goc_nodup data cat⟩

/-- C5 witness. -/
theorem get_or_create_protocols_idempotent_witness :
    (get_or_create_protocols demoEntries
        (get_or_create_protocols demoEntries []).2).2 =
      (get_or_create_protocols demoEntries []).2 ∧
    (((get_or_create_protocols demoEntries []).2).map pairOf).Nodup :=
  ⟨(get_or_create_protocols_idempotent demoEntries []).1,
    (get_or_create_protocols_idempotent demoEntries []).2 (by simp)⟩

/-- C9: entries lacking a name or a port are skipped silently — the walk
equals the walk over the well-formed entries alone — and on an all-builtin
catalog each remaining entry fetches or creates its (name, port, builtin)
row and the returned collection is, up to order and duplicate collapse by
(name, port), exactly the set of those rows. -/
theorem get_or_create_protocols_collects (data : List ProtoEntry)
    (cat : Catalog) :
    get_or_create_protocols data cat =
      get_or_create_protocols
        (data.filter fun d => (entryPair d).isSome) cat ∧
    (AllBuiltin cat → ∃ rs cat2,
      get_or_create_protocols data cat = (.ok rs, cat2) ∧
      (∀ r ∈ rs, r.builtin = true ∧
        cat2.find? (matchBuiltin r.name r.port) = some r) ∧
      (∀ q, q ∈ rs.map pairOf ↔ q ∈ wfPairs data) ∧
      (∀ r1 ∈ rs, ∀ r2 ∈ rs, pairOf r1 = pairOf r2 → r1 = r2)) := by
  refine ⟨goc_filter_wf data cat, ?_⟩
  intro hb
  obtain ⟨rs, cat2, h1, h2, h3, h4⟩ := goc_success data cat hb
  refine ⟨rs, cat2, h1, h3, h4, ?_⟩
  intro r1 hr1 r2 hr2 hpair
  have f1 := (h3 r1 hr1).2
  have f2 := (h3 r2 hr2).2
  simp only [pairOf, Prod.mk.injEq] at hpair
  rw [hpair.1, hpair.2, f2] at f1
  exact (Option.some.inj f1).symm

/-- C9 witness. -/
theorem get_or_create_protocols_collects_witness :
    get_or_create_protocols demoEntries [] =
      get_or_create_protocols
        (demoEntries.filter fun d => (entryPair d).isSome) [] ∧
    ∃ rs cat2, get_or_create_protocols demoEntries [] = (.ok rs, cat2) ∧
      (∀ r ∈ rs, r.builtin = true ∧
        cat2.find? (matchBuiltin r.name r.port) = some r) ∧
      (∀ q, q ∈ rs.map pairOf ↔ q ∈ wfPairs demoEntries) ∧
      (∀ r1 ∈ rs, ∀ r2 ∈ rs, pairOf r1 = pairOf r2 → r1 = r2) :=
  ⟨(get_or_create_protocols_collects demoEntries []).1,
    (get_or_create_protocols_collects demoEntries []).2
      (fun r hr => absurd hr (List.not_mem_nil r))⟩

/-- C2: on a type with a registered mapping whose default data is
well-formed, `reset_protocols_to_default` succeeds and replaces the
terminal's protocol set wholesale with exactly one builtin row per default
(name, port) pair — no duplicates, no other members, previously held
protocols outside the default set removed — while every other field of the
terminal is untouched. -/
theorem reset_protocols_full_replace (mapper : TypeProtocolsMapper)
    (t : Terminal) (cat : Catalog) (sps : List SupportedProtocol)
    (hm : mapper t.ttype = some sps)
    (hwf : ∀ p ∈ sps, p.name.isEmpty = false ∧ p.default_port ≠ 0)
    (hb : AllBuiltin cat) :
    ∃ t2 cat2, t.reset_protocols_to_default mapper cat = (.ok t2, cat2) ∧
      (∀ q, (∃ r ∈ t2.protocols, pairOf r = q) ↔
        ∃ p ∈ sps, q = (p.name, p.default_port)) ∧
      (∀ r ∈ t2.protocols, r.builtin = true) ∧
      t2.protocols.Nodup ∧
      (∀ r1 ∈ t2.protocols, ∀ r2 ∈ t2.protocols,
        pairOf r1 = pairOf r2 → r1 = r2) ∧
      t2.id = t.id ∧ t2.ttype = t.ttype ∧ t2.user = t.user ∧
      t2.is_accepted = t.is_accepted ∧ t2.is_deleted = t.is_deleted := by
  obtain ⟨rs, cat2, h1, h2, h3, h4⟩ :=
    goc_success (sps.map fun p => ⟨some p.name, some p.default_port, true⟩)
      cat hb
  refine ⟨{ t with protocols := rs.dedup }, cat2, ?_, ?_, ?_,
    List.nodup_dedup rs, ?_, rfl, rfl, rfl, rfl, rfl⟩
  · simp only [Terminal.reset_protocols_to_default, get_default_protocols,
      get_default_protocols_data, hm, h1]
  · intro q
    constructor
    · rintro ⟨r, hr, hrq⟩
      have hr2 : r ∈ rs := List.mem_dedup.mp hr
      have hq2 : q ∈ rs.map pairOf := List.mem_map.mpr ⟨r, hr2, hrq⟩
      have hq3 := (h4 q).mp hq2
      rw [wfPairs_default_data sps hwf] at hq3
      obtain ⟨pp, hpp, hppq⟩ := List.mem_map.mp hq3
      exact ⟨pp, hpp, hppq.symm⟩
    · rintro ⟨pp, hpp, hppq⟩
      have hq : q ∈ wfPairs
          (sps.map fun p => ⟨some p.name, some p.default_port, true⟩) := by
        rw [wfPairs_default_data sps hwf]
        exact List.mem_map.mpr ⟨pp, hpp, hppq.symm⟩
      obtain ⟨r, hr, hrq⟩ := List.mem_map.mp ((h4 q).mpr hq)
      exact ⟨r, List.mem_dedup.mpr hr, hrq⟩
  · intro r hr
    exact (h3 r (List.mem_dedup.mp hr)).1
  · intro r1 hr1 r2 hr2 hpair
    have f1 := (h3 r1 (List.mem_dedup.mp hr1)).2
    have f2 := (h3 r2 (List.mem_dedup.mp hr2)).2
    simp only [pairOf, Prod.mk.injEq] at hpair
    rw [hpair.1, hpair.2, f2] at f1
    exact (Option.some.inj f1).symm

/-- C2 witness. -/
theorem reset_protocols_full_replace_witness :
    ∃ t2 cat2,
      demoTerminal.reset_protocols_to_default specMapper [] =
        (.ok t2, cat2) ∧
      (∀ q, (∃ r ∈ t2.protocols, pairOf r = q) ↔
        ∃ p ∈ [(⟨"ssh", 22⟩ : SupportedProtocol)],
          q = (p.name, p.default_port)) ∧
      (∀ r ∈ t2.protocols, r.builtin = true) ∧
      t2.protocols.Nodup ∧
      (∀ r1 ∈ t2.protocols, ∀ r2 ∈ t2.protocols,
        pairOf r1 = pairOf r2 → r1 = r2) ∧
      t2.id = demoTerminal.id ∧ t2.ttype = demoTerminal.ttype ∧
      t2.user = demoTerminal.user ∧
      t2.is_accepted = demoTerminal.is_accepted ∧
      t2.is_deleted = demoTerminal.is_deleted :=
  reset_protocols_full_replace specMapper demoTerminal [] [⟨"ssh", 22⟩]
    (by decide) (by decide) (fun r hr => absurd hr (List.not_mem_nil r))

end JumpTerminal
